import Mathlib

/-
Verification of the relevance-analysis engine of
`packages/github-agent/src/services/analysis/strategies/LLMAnalysisStrategy.ts`.

Embedding conventions:
* JavaScript numbers are embedded as exact rationals (`ℚ`).  All constants in
  the scoring code (3, 1.5, 2, 1, 0.5, 0.8, 0.1, thresholds 0.3 / 0.5, bonus
  0.2) are decimal values on which the relational claims below are insensitive
  to IEEE-754 rounding, so the rational semantics is the intended idealisation.
* JavaScript strings are embedded as Lean `String`; `toLowerCase`,
  `includes`, `endsWith` and the (literal) regex tests of the source are
  implemented on the underlying `List Char`.  `String.length` models JS
  `.length` (they agree on ASCII content, the only content the scorers
  distinguish).  The regexes appearing in `calculateFilePathScore` are all
  equivalent to substring / suffix tests against fixed literal alternatives,
  and are embedded as exactly those tests.  In `calculateContentScore` the
  keyword itself is used as a regex with the `g` flag; the embedding counts
  non-overlapping literal occurrences, which is the regex semantics whenever
  the keyword contains no regex metacharacter (an empty keyword matches
  `length + 1` times, as in JS).
* Fallible operations are embedded with `Option`: a per-file LLM call that
  throws is `none` from the `judge` parameter, an unreadable file is `none`
  from the `loader` parameter.  Exceptions therefore cannot escape any
  embedded function: every function is total.
* External collaborators (the `LLMService` inference client and the
  file-content reader, both outside the analysed engine per the spec) are
  parameters (`judge`, `loader`).  `path.basename` / `path.dirname` follow
  Node's POSIX semantics; `path.join` / `path.relative` are modelled for the
  ordinary slash-separated-path case, which is all the claims depend on.
* `BaseAnalysisStrategy` (file `interfaces/IAnalysisStrategy.ts`) is not part
  of the analysed sources.  Its `calculateSymbolRelevance` is modelled from
  the spec as an abstract scoring parameter `rel`, and its baseline
  `calculateConfidence` as an abstract `base` function; the spec constrains
  the baseline only to be derived from result size / score distribution
  (hence reason-independent) and confidence to lie in [0, 1].
-/

/-! ## String primitives -/

/-- Model of JS `toLowerCase` (exact for ASCII). -/
def lowerStr (s : String) : String := ⟨s.data.map Char.toLower⟩

/-- Model of JS `toUpperCase` (exact for ASCII). -/
def upperStr (s : String) : String := ⟨s.data.map Char.toUpper⟩

/-- Character-list prefix test (component of the `includes` model). -/
def leadsWith : List Char → List Char → Bool
  | [], _ => true
  | _ :: _, [] => false
  | c :: nd, x :: xs => c == x && leadsWith nd xs

/-- Character-list substring test: does `nd` occur inside the list? -/
def containsAux : List Char → List Char → Bool
  | [], nd => nd.isEmpty
  | x :: xs, nd => leadsWith nd (x :: xs) || containsAux xs nd

/-- Model of JS `hay.includes(needle)`. -/
def strContains (hay needle : String) : Bool := containsAux hay.data needle.data

/-- Model of JS `s.endsWith(suffixStr)` / an end-anchored literal regex test. -/
def strEndsWith (s suffixStr : String) : Bool :=
  leadsWith suffixStr.data.reverse s.data.reverse

/-- Fuel-driven count of non-overlapping occurrences of `nd` (nonempty) in a
character list, scanning left to right; the JS `g`-flag match count for a
literal pattern. -/
def countOccAux (nd : List Char) : Nat → List Char → Nat
  | 0, _ => 0
  | _ + 1, [] => 0
  | fuel + 1, c :: cs =>
    if leadsWith nd (c :: cs) then 1 + countOccAux nd fuel ((c :: cs).drop nd.length)
    else countOccAux nd fuel cs

/-- Model of `(contentLower.match(new RegExp(keywordLower, 'g')) || []).length`
for a keyword free of regex metacharacters; an empty pattern matches
`length + 1` times, as in JS. -/
def countOccurrences (hay needle : String) : Nat :=
  if needle.data = [] then hay.data.length + 1
  else countOccAux needle.data hay.data.length hay.data

/-- Model of JS `s.substring(0, n)`: the first `n` characters. -/
def strTake (s : String) (n : Nat) : String := ⟨s.data.take n⟩

/-- Model of Node (POSIX) `path.basename`. -/
def pathBasename (p : String) : String :=
  ⟨(((p.data.reverse).dropWhile (· == '/')).takeWhile (· ≠ '/')).reverse⟩

/-- Model of Node (POSIX) `path.dirname`. -/
def pathDirname (p : String) : String :=
  let r1 := (p.data.reverse).dropWhile (· == '/')
  let r2 := r1.dropWhile (· ≠ '/')
  let r3 := r2.dropWhile (· == '/')
  if r3 = [] then (if p.data.headD ' ' = '/' then "/" else ".")
  else ⟨r3.reverse⟩

/-- Model of Node `path.join` for ordinary slash-separated paths. -/
def pathJoin (base p : String) : String :=
  if base = "" then p
  else if strEndsWith base "/" then base ++ p else base ++ "/" ++ p

/-- Model of Node `path.relative` for the ordinary case in which the target
lies beneath the base directory. -/
def pathRelative (base p : String) : String :=
  if p = base then ""
  else if leadsWith (base ++ "/").data p.data then ⟨p.data.drop (base ++ "/").data.length⟩
  else p

/-! ## Data model (`IAnalysisStrategy.ts` shapes used by the strategy) -/

/-- The four keyword tiers (`SearchKeywords`). -/
structure SearchKeywords where
  primary : List String
  secondary : List String
  technical : List String
  contextual : List String
  deriving DecidableEq

/-- One entry of `AnalysisResult['files']`; `findCandidateFiles` produces the
same shape with `reason` absent, modelled as `""` (JS-falsy). -/
structure FileEntry where
  path : String
  content : String
  relevanceScore : ℚ
  reason : String
  deriving DecidableEq

/-- The external judgment `{is_relevant, relevance_score, reason}` returned by
`llmService.analyzeCodeRelevance`. -/
structure LLMJudgment where
  is_relevant : Bool
  relevance_score : ℚ
  reason : String
  deriving DecidableEq

/-- A zero-based source position (`position.start` of a symbol). -/
structure CodePosition where
  row : Nat
  column : Nat
  deriving DecidableEq

/-- One symbol of the externally supplied symbol-analysis result; an absent
comment is modelled as `""` (JS-falsy, matching `symbol.comment || ...`). -/
structure CodeSymbol where
  name : String
  qualifiedName : String
  kind : Nat
  filePath : String
  pos : CodePosition
  comment : String
  deriving DecidableEq

/-- The symbol-analysis result carried by the context. -/
structure SymbolAnalysis where
  symbols : List CodeSymbol
  deriving DecidableEq

/-- `AnalysisContext`: workspace root, candidate file paths, optional
symbol-analysis result. -/
structure AnalysisContext where
  workspacePath : String
  filteredFiles : List String
  symbolAnalysis : Option SymbolAnalysis
  deriving DecidableEq

/-- Location part of an `AnalysisResult['symbols']` entry. -/
structure SymbolLocation where
  file : String
  line : Nat
  column : Nat
  deriving DecidableEq

/-- One entry of `AnalysisResult['symbols']`. -/
structure SymbolEntry where
  name : String
  type : String
  location : SymbolLocation
  description : String
  deriving DecidableEq

/-- One entry of `AnalysisResult['apis']`. -/
structure ApiEntry where
  path : String
  method : String
  description : String
  deriving DecidableEq

/-- The assembled `AnalysisResult` lists handed to `calculateConfidence`. -/
structure AnalysisResult where
  files : List FileEntry
  symbols : List SymbolEntry
  apis : List ApiEntry
  deriving DecidableEq

/-! ## `calculateFilePathScore` (source lines 324-429) -/

/-- Extensions of `/\.(ts|js|tsx|jsx|py|java|cpp|c|h|cs|php|rb|go|rs|kt|swift)$/`. -/
def codeExts : List String :=
  [".ts", ".js", ".tsx", ".jsx", ".py", ".java", ".cpp", ".c", ".h", ".cs",
   ".php", ".rb", ".go", ".rs", ".kt", ".swift"]

/-- Extensions of `/\.(json|yaml|yml|toml|xml|config)$/`. -/
def configExts : List String := [".json", ".yaml", ".yml", ".toml", ".xml", ".config"]

/-- Extensions of `/\.(md|txt|rst)$/i` (case-insensitive). -/
def docExts : List String := [".md", ".txt", ".rst"]

/-- `codeFilePatterns.some(pattern => pattern.test(filePath))`. -/
def matchesCodeFilePatterns (p : String) : Bool :=
  codeExts.any (strEndsWith p) || configExts.any (strEndsWith p)
    || docExts.any (strEndsWith (lowerStr p))

/-- `importantFilePatterns.some(...)`: unanchored literal tests `index.`,
`main.`, `app.`, `server.`, `client.`, `api.`, `config.`, `setup.`, `init.`,
plus the anchored `package.json$` and case-insensitive `readme.md$`. -/
def matchesImportantFilePatterns (p : String) : Bool :=
  (["index.", "main.", "app.", "server.", "client.", "api.", "config.",
    "setup.", "init."].any (strContains p))
    || strEndsWith p "package.json" || strEndsWith (lowerStr p) "readme.md"

/-- Directory segments of the three `importantDirPatterns` alternations. -/
def importantDirs : List String :=
  ["src", "lib", "core", "api", "routes", "controllers", "services",
   "components", "utils", "helpers", "models", "types", "interfaces",
   "test", "tests", "spec", "specs", "config", "configs", "settings"]

/-- `importantDirPatterns.some(...)`: each regex matches a `/seg/` infix. -/
def matchesImportantDirPatterns (p : String) : Bool :=
  importantDirs.any (fun d => strContains p ("/" ++ d ++ "/"))

/-- Unanchored literal alternatives of `excludePatterns`. -/
def excludeInfixes : List String :=
  ["node_modules", ".git", "dist", "build", "coverage", ".next", ".nuxt",
   "vendor", "target", "bin", "obj", ".vscode", ".idea"]

/-- End-anchored extensions of `/\.(log|tmp|cache|lock)$/` and the
binary/media extension regex. -/
def excludeExts : List String :=
  [".log", ".tmp", ".cache", ".lock",
   ".png", ".jpg", ".jpeg", ".gif", ".svg", ".ico", ".woff", ".woff2",
   ".ttf", ".eot"]

/-- `excludePatterns.some(pattern => pattern.test(filePath))`. -/
def matchesExcludePatterns (p : String) : Bool :=
  excludeInfixes.any (strContains p) || excludeExts.any (strEndsWith p)

/-- The keyword-and-bonus accumulation of `calculateFilePathScore` before the
final exclusion penalty (source lines 325-403): the score the path would
receive with the penalty removed. -/
def filePathScoreBeforePenalty (filePath : String) (keywords : SearchKeywords) : ℚ :=
  let fileName := lowerStr (pathBasename filePath)
  let dirName := lowerStr (pathDirname filePath)
  let fullPath := lowerStr filePath
  let score : ℚ := 0
  let score := keywords.primary.foldl (fun s keyword =>
    let keywordLower := lowerStr keyword
    if strContains fileName keywordLower then s + 3
    else if strContains dirName keywordLower then s + 3/2
    else s) score
  let score := keywords.secondary.foldl (fun s keyword =>
    let keywordLower := lowerStr keyword
    if strContains fileName keywordLower then s + 2
    else if strContains dirName keywordLower then s + 1
    else s) score
  let score := keywords.technical.foldl (fun s keyword =>
    if strContains fullPath (lowerStr keyword) then s + 1 else s) score
  let score := keywords.contextual.foldl (fun s keyword =>
    if strContains fullPath (lowerStr keyword) then s + 1/2 else s) score
  let score := if matchesCodeFilePatterns filePath then score + 1 else score
  let score := if matchesImportantFilePatterns filePath then score + 3/2 else score
  let score := if matchesImportantDirPatterns filePath then score + 4/5 else score
  score

/-- `calculateFilePathScore` (source lines 324-429): the accumulated score,
multiplied by 0.1 when an exclusion pattern matches. -/
def calculateFilePathScore (filePath : String) (keywords : SearchKeywords) : ℚ :=
  let score := filePathScoreBeforePenalty filePath keywords
  if matchesExcludePatterns filePath then score * (1/10) else score

/-! ## `calculateContentScore` (source lines 431-452) -/

/-- `calculateContentScore`: per-keyword frequency with diminishing returns,
normalized by content length. -/
def calculateContentScore (content : String) (keywords : SearchKeywords) : ℚ :=
  let allKeywords :=
    keywords.primary ++ keywords.secondary ++ keywords.technical ++ keywords.contextual
  let contentLower := lowerStr content
  let score := allKeywords.foldl (fun s keyword =>
    let matchCount : ℚ := (countOccurrences contentLower (lowerStr keyword) : ℚ)
    s + min (matchCount * (1/10)) 2) 0
  score / max ((content.length : ℚ) / 1000) 1

/-! ## `findCandidateFiles` (source lines 214-275) -/

/-- Model of `Map.set` on an insertion-ordered association list: update in
place if the key is present, else append. -/
def mapSet : List (String × ℚ) → String → ℚ → List (String × ℚ)
  | [], k, v => [(k, v)]
  | (k', v') :: rest, k, v =>
    if k' = k then (k, v) :: rest else (k', v') :: mapSet rest k v

/-- First pass of `findCandidateFiles`: the `fileScores` map, holding each
path whose path-only score exceeds 0.3 (source lines 221-229). -/
def buildFileScores (files : List String) (keywords : SearchKeywords) :
    List (String × ℚ) :=
  files.foldl (fun m file =>
    let score := calculateFilePathScore file keywords
    if (3/10 : ℚ) < score then mapSet m file score else m) []

/-- Stable descending insertion by key: the JS stable
`sort((a, b) => keyB - keyA)`. -/
def insertDesc {α : Type} (key : α → ℚ) (x : α) : List α → List α
  | [] => [x]
  | y :: ys => if key y ≤ key x then x :: y :: ys else y :: insertDesc key x ys

/-- Stable descending sort by a rational key. -/
def sortDesc {α : Type} (key : α → ℚ) (l : List α) : List α :=
  l.foldr (insertDesc key) []

/-- Pass-1 output of `findCandidateFiles` (source lines 231-235): scored paths
sorted descending, truncated to `maxFilesToAnalyze * 2`, keys only. -/
def candidatePass1 (maxFilesToAnalyze : Nat) (files : List String)
    (keywords : SearchKeywords) : List String :=
  (((sortDesc Prod.snd (buildFileScores files keywords)).take
    (maxFilesToAnalyze * 2)).map Prod.fst)

/-- One iteration of the second pass of `findCandidateFiles` (source lines
246-267): load the file's content (`loader` models `loadFileContent`, `none`
for an unreadable file; the empty string is JS-falsy and also skipped),
combine the path and content scores, and keep the entry when the combined
score exceeds 0.5, with the content truncated to 4000 units and the score
normalized by `Math.min(finalScore / 10, 1)`. -/
def candidateStep (loader : String → Option String) (workspacePath : String)
    (keywords : SearchKeywords) (fileScores : List (String × ℚ))
    (acc : List FileEntry) (file : String) : List FileEntry :=
  match loader (pathJoin workspacePath file) with
  | none => acc
  | some content =>
    if content = "" then acc
    else
      let pathScore := ((fileScores.lookup file).getD 0)
      let contentScore := calculateContentScore content keywords
      let finalScore := pathScore + contentScore
      if (1/2 : ℚ) < finalScore then
        acc ++ [{ path := file, content := strTake content 4000,
                  relevanceScore := min (finalScore / 10) 1, reason := "" }]
      else acc

/-- Second pass of `findCandidateFiles` (source lines 239-267): the
content-loading loop over the pass-1 survivors. -/
def candidatesPass2 (loader : String → Option String) (workspacePath : String)
    (keywords : SearchKeywords) (fileScores : List (String × ℚ))
    (topCandidates : List String) : List FileEntry :=
  topCandidates.foldl (candidateStep loader workspacePath keywords fileScores) []

/-- `findCandidateFiles` (source lines 214-275): both passes, final result
sorted descending by relevance score. -/
def findCandidateFiles (maxFilesToAnalyze : Nat) (loader : String → Option String)
    (ctx : AnalysisContext) (keywords : SearchKeywords) : List FileEntry :=
  let fileScores := buildFileScores ctx.filteredFiles keywords
  let topCandidates := candidatePass1 maxFilesToAnalyze ctx.filteredFiles keywords
  sortDesc FileEntry.relevanceScore
    (candidatesPass2 loader ctx.workspacePath keywords fileScores topCandidates)

/-! ## `findRelevantFiles` (source lines 59-124) -/

/-- Fuel-driven slicing of a list into consecutive chunks of size `n`:
the batches `filesToAnalyze.slice(i, i + batchSize)` of the source loop. -/
def chunksGo {α : Type} (n : Nat) : Nat → List α → List (List α)
  | 0, _ => []
  | _ + 1, [] => []
  | fuel + 1, x :: xs =>
    (x :: xs).take n :: chunksGo n fuel ((x :: xs).drop n)

/-- The batches of size `n` of a list. -/
def chunksOf {α : Type} (n : Nat) (l : List α) : List (List α) :=
  chunksGo n l.length l

/-- The entry pushed for a file the external judgment marked relevant
(source lines 97-103). -/
def llmJudgedEntry (f : FileEntry) (j : LLMJudgment) : FileEntry :=
  { path := f.path, content := f.content,
    relevanceScore := j.relevance_score, reason := j.reason }

/-- Accumulation step over one settled batch (source lines 80-111): a file
judged relevant is pushed with the external score and reason, a file judged
not relevant is dropped, and a file whose call threw (`judge` returned
`none`) falls back to its original entry. -/
def llmSettleStep (a : List FileEntry) (r : FileEntry × Option LLMJudgment) :
    List FileEntry :=
  match r.2 with
  | some j => if j.is_relevant then a ++ [llmJudgedEntry r.1 j] else a
  | none => a ++ [r.1]

/-- Processing of one settled batch: the batch's files paired with their
(possibly failed) judgments, folded through `llmSettleStep`. -/
def llmProcessBatch (judge : FileEntry → Option LLMJudgment)
    (acc : List FileEntry) (batch : List FileEntry) : List FileEntry :=
  (batch.map (fun f => (f, judge f))).foldl llmSettleStep acc

/-- The accumulated `llmAnalyzedFiles` after all batches (source lines
69-112), for effective batch size `bs` and candidate cap `mf`. -/
def llmAccumulatedFiles (bs mf : Nat) (judge : FileEntry → Option LLMJudgment)
    (candidateFiles : List FileEntry) : List FileEntry :=
  (chunksOf bs (candidateFiles.take mf)).foldl (llmProcessBatch judge) []

/-- Count of candidate files that the external judgment marked relevant
(the files "retained as relevant" by lines 96-104 of the source). -/
def relevantRetainedCount (mf : Nat) (judge : FileEntry → Option LLMJudgment)
    (candidateFiles : List FileEntry) : Nat :=
  ((candidateFiles.take mf).filter (fun f =>
    match judge f with
    | some j => j.is_relevant
    | none => false)).length

/-- Tail of `findRelevantFiles` (source lines 114-123) applied to the
candidate list: fall back to the top 5 candidates when the accumulated list
is empty, else sort it by relevance score and keep the top 10. -/
def llmProcessCandidates (bs mf : Nat) (judge : FileEntry → Option LLMJudgment)
    (candidateFiles : List FileEntry) : List FileEntry :=
  let analyzed := llmAccumulatedFiles bs mf judge candidateFiles
  if analyzed = [] then candidateFiles.take 5
  else (sortDesc FileEntry.relevanceScore analyzed).take 10

/-- `findRelevantFiles` (source lines 59-124), with the constructor defaults
`batchSize || 3` and `maxFilesToAnalyze || 8` applied to the options. -/
def llmFindRelevantFiles (batchSizeOpt maxFilesOpt : Nat)
    (loader : String → Option String) (judge : FileEntry → Option LLMJudgment)
    (ctx : AnalysisContext) (keywords : SearchKeywords) : List FileEntry :=
  let bs := if batchSizeOpt = 0 then 3 else batchSizeOpt
  let mf := if maxFilesOpt = 0 then 8 else maxFilesOpt
  llmProcessCandidates bs mf judge (findCandidateFiles mf loader ctx keywords)

/-! ## `findRelevantSymbols` / `findRelevantApis` (source lines 126-191,
463-487).  `calculateSymbolRelevance` lives in `BaseAnalysisStrategy`,
outside the analysed sources; modelled from the spec as an abstract weighted
keyword-match score `rel` over the symbol's name/qualified-name/comment. -/

/-- `getSymbolKindName` (source lines 463-474). -/
def getSymbolKindName (kind : Nat) : String :=
  match kind with
  | 1 => "File" | 2 => "Module" | 3 => "Namespace" | 4 => "Package"
  | 5 => "Class" | 6 => "Method" | 7 => "Property" | 8 => "Field"
  | 9 => "Constructor" | 10 => "Enum" | 11 => "Interface" | 12 => "Function"
  | 13 => "Variable" | 14 => "Constant" | 15 => "String" | 16 => "Number"
  | 17 => "Boolean" | 18 => "Array" | 19 => "Object" | 20 => "Key"
  | 21 => "Null" | 22 => "EnumMember" | 23 => "Struct" | 24 => "Event"
  | 25 => "Operator" | 26 => "TypeParameter"
  | _ => "Unknown"

/-- `symbol.comment || symbol.qualifiedName`. -/
def symbolDescription (s : CodeSymbol) : String :=
  if s.comment = "" then s.qualifiedName else s.comment

/-- The symbol entry pushed by `findRelevantSymbols` (source lines 141-150). -/
def symbolEntryOf (ctx : AnalysisContext) (s : CodeSymbol) : SymbolEntry :=
  { name := s.name, type := getSymbolKindName s.kind,
    location := { file := pathRelative ctx.workspacePath s.filePath,
                  line := s.pos.row, column := s.pos.column },
    description := symbolDescription s }

/-- The loop body of `findRelevantSymbols` (source lines 137-152): keep, in
input order, the symbols whose relevance exceeds 0.5. -/
def symbolStep (rel : CodeSymbol → SearchKeywords → ℚ) (ctx : AnalysisContext)
    (keywords : SearchKeywords) (acc : List SymbolEntry) (s : CodeSymbol) :
    List SymbolEntry :=
  if (1/2 : ℚ) < rel s keywords then acc ++ [symbolEntryOf ctx s] else acc

/-- `findRelevantSymbols` (source lines 126-155): empty without a
symbol-analysis result, else the kept symbols truncated to 10. -/
def llmFindRelevantSymbols (rel : CodeSymbol → SearchKeywords → ℚ)
    (ctx : AnalysisContext) (keywords : SearchKeywords) : List SymbolEntry :=
  match ctx.symbolAnalysis with
  | none => []
  | some sa => (sa.symbols.foldl (symbolStep rel ctx keywords) []).take 10

/-- The lower-cased `${name} ${qualifiedName} ${comment || ''}` text
(source line 169). -/
def symbolText (s : CodeSymbol) : String :=
  lowerStr (s.name ++ " " ++ s.qualifiedName ++ " " ++ s.comment)

/-- The API vocabulary of source lines 172-175. -/
def apiTerms : List String :=
  ["controller", "route", "endpoint", "api", "handler", "service",
   "get", "post", "put", "delete", "patch", "head", "options"]

/-- The API-candidacy check of source lines 172-175 (comment text counts). -/
def isApiRelated (s : CodeSymbol) : Bool :=
  apiTerms.any (fun term => strContains (symbolText s) term)

/-- The HTTP verb vocabulary of `extractHttpMethod` (source line 478). -/
def httpMethods : List String :=
  ["get", "post", "put", "delete", "patch", "head", "options"]

/-- `extractHttpMethod` (source lines 476-487): first verb occurring as a
substring of the lower-cased `${name} ${qualifiedName}` (the comment is not
consulted), upper-cased; `none` models the `null` return. -/
def extractHttpMethod (s : CodeSymbol) : Option String :=
  let text := lowerStr (s.name ++ " " ++ s.qualifiedName)
  (httpMethods.find? (fun m => strContains text m)).map upperStr

/-- The API entry pushed by `findRelevantApis` (source lines 181-185), with
`extractHttpMethod(symbol) || 'UNKNOWN'`. -/
def apiEntryOf (ctx : AnalysisContext) (s : CodeSymbol) : ApiEntry :=
  { path := pathRelative ctx.workspacePath s.filePath,
    method := (extractHttpMethod s).getD "UNKNOWN",
    description := symbolDescription s }

/-- The loop body of `findRelevantApis` (source lines 168-188). -/
def apiStep (rel : CodeSymbol → SearchKeywords → ℚ) (ctx : AnalysisContext)
    (keywords : SearchKeywords) (acc : List ApiEntry) (s : CodeSymbol) :
    List ApiEntry :=
  if isApiRelated s then
    if (3/10 : ℚ) < rel s keywords then acc ++ [apiEntryOf ctx s] else acc
  else acc

/-- `findRelevantApis` (source lines 157-191): empty without a
symbol-analysis result; API-candidate symbols whose relevance exceeds 0.3,
truncated to 8. -/
def llmFindRelevantApis (rel : CodeSymbol → SearchKeywords → ℚ)
    (ctx : AnalysisContext) (keywords : SearchKeywords) : List ApiEntry :=
  match ctx.symbolAnalysis with
  | none => []
  | some sa => (sa.symbols.foldl (apiStep rel ctx keywords) []).take 8

/-! ## `calculateConfidence` (source lines 193-202) -/

/-- The same result with every file's `reason` removed. -/
def eraseReasons (r : AnalysisResult) : AnalysisResult :=
  { r with files := r.files.map (fun f => { f with reason := "" }) }

/-- The model-assisted `calculateConfidence` (source lines 193-202) over an
abstract baseline `base` (`super.calculateConfidence`, which lives outside
the analysed sources): a 0.2 bonus when some returned file carries a JS-truthy
(non-empty) reason, capped at 1. -/
def llmCalculateConfidence (base : AnalysisResult → ℚ) (r : AnalysisResult) : ℚ :=
  let baseConfidence := base r
  let reasonBonus : ℚ := if r.files.any (fun f => f.reason != "") then 1/5 else 0
  min (baseConfidence + reasonBonus) 1

/-! ## Helper lemmas -/

theorem lowerStr_append (a b : String) : lowerStr (a ++ b) = lowerStr a ++ lowerStr b := by
  apply String.ext
  simp [lowerStr]

theorem leadsWith_append (nd l r : List Char) (h : leadsWith nd l = true) :
    leadsWith nd (l ++ r) = true := by
  induction nd generalizing l with
  | nil => simp [leadsWith]
  | cons c nd ih =>
    cases l with
    | nil => simp [leadsWith] at h
    | cons x xs =>
      simp [leadsWith] at h ⊢
      exact ⟨h.1, ih xs h.2⟩

theorem containsAux_nil_needle (l : List Char) : containsAux l [] = true := by
  cases l <;> simp [containsAux, leadsWith]

theorem containsAux_append (l r nd : List Char) (h : containsAux l nd = true) :
    containsAux (l ++ r) nd = true := by
  induction l with
  | nil =>
    simp [containsAux] at h
    subst h
    exact containsAux_nil_needle r
  | cons x xs ih =>
    simp only [List.cons_append, containsAux, Bool.or_eq_true] at h ⊢
    rcases h with h | h
    · exact Or.inl (by simpa using leadsWith_append nd (x :: xs) r h)
    · exact Or.inr (ih h)

theorem strContains_mono (a b n : String) (h : strContains a n = true) :
    strContains (a ++ b) n = true := by
  unfold strContains at h ⊢
  rw [String.data_append]
  exact containsAux_append _ _ _ h

theorem mem_insertDesc {α : Type} (key : α → ℚ) (x a : α) (l : List α) :
    a ∈ insertDesc key x l ↔ a = x ∨ a ∈ l := by
  induction l with
  | nil => simp [insertDesc]
  | cons y ys ih =>
    unfold insertDesc
    split
    · simp
    · simp only [List.mem_cons, ih]
      tauto

theorem mem_sortDesc {α : Type} (key : α → ℚ) (a : α) (l : List α)
    (h : a ∈ sortDesc key l) : a ∈ l := by
  induction l with
  | nil => simp [sortDesc] at h
  | cons x xs ih =>
    simp only [sortDesc, List.foldr] at h
    rw [mem_insertDesc] at h
    rcases h with h | h
    · simp [h]
    · exact List.mem_cons_of_mem x (ih h)

theorem mem_mapSet {P : String × ℚ → Prop} (m : List (String × ℚ)) (k : String) (v : ℚ)
    (hm : ∀ pr ∈ m, P pr) (hkv : P (k, v)) : ∀ pr ∈ mapSet m k v, P pr := by
  induction m with
  | nil =>
    intro pr hpr
    simp [mapSet] at hpr
    simpa [hpr] using hkv
  | cons hd tl ih =>
    intro pr hpr
    unfold mapSet at hpr
    split at hpr
    · rcases List.mem_cons.1 hpr with h | h
      · simpa [h] using hkv
      · exact hm pr (List.mem_cons_of_mem hd h)
    · rcases List.mem_cons.1 hpr with h | h
      · exact hm pr (by simp [h])
      · exact ih (fun q hq => hm q (List.mem_cons_of_mem hd hq)) pr h

theorem buildFileScores_sound (files : List String) (keywords : SearchKeywords) :
    ∀ pr ∈ buildFileScores files keywords,
      pr.2 = calculateFilePathScore pr.1 keywords ∧ (3/10 : ℚ) < pr.2 := by
  suffices h : ∀ (fs : List String) (m : List (String × ℚ)),
      (∀ pr ∈ m, pr.2 = calculateFilePathScore pr.1 keywords ∧ (3/10 : ℚ) < pr.2) →
      ∀ pr ∈ fs.foldl (fun m file =>
          let score := calculateFilePathScore file keywords
          if (3/10 : ℚ) < score then mapSet m file score else m) m,
        pr.2 = calculateFilePathScore pr.1 keywords ∧ (3/10 : ℚ) < pr.2 by
    exact h files [] (by simp)
  intro fs
  induction fs with
  | nil => intro m hm; simpa using hm
  | cons f fs ih =>
    intro m hm
    rw [List.foldl_cons]
    apply ih
    by_cases hc : (3/10 : ℚ) < calculateFilePathScore f keywords
    · simpa [hc] using
        mem_mapSet m f (calculateFilePathScore f keywords) hm ⟨rfl, hc⟩
    · simpa [hc] using hm

theorem candidateStep_sound (loader : String → Option String) (ws : String)
    (keywords : SearchKeywords) (scores : List (String × ℚ))
    (acc : List FileEntry) (file : String)
    (hacc : ∀ e ∈ acc, 0 ≤ e.relevanceScore ∧ e.relevanceScore ≤ 1) :
    ∀ e ∈ candidateStep loader ws keywords scores acc file,
      0 ≤ e.relevanceScore ∧ e.relevanceScore ≤ 1 := by
  intro e he
  unfold candidateStep at he
  rcases hl : loader (pathJoin ws file) with _ | content
  · rw [hl] at he
    simp only [] at he
    exact hacc e he
  · rw [hl] at he
    simp only [] at he
    by_cases hne : content = ""
    · rw [if_pos hne] at he
      exact hacc e he
    · rw [if_neg hne] at he
      set finalScore := ((scores.lookup file).getD 0) +
        calculateContentScore content keywords with hfs
      by_cases hgt : (1/2 : ℚ) < finalScore
      · rw [if_pos hgt] at he
        rcases List.mem_append.1 he with h | h
        · exact hacc e h
        · have he' : e = { path := file, content := strTake content 4000,
                           relevanceScore := min (finalScore / 10) 1,
                           reason := "" } := by
            simpa using h
          subst he'
          refine ⟨le_min (by positivity) (by norm_num), min_le_right _ _⟩
      · rw [if_neg hgt] at he
        exact hacc e he

theorem candidatesPass2_sound (loader : String → Option String) (ws : String)
    (keywords : SearchKeywords) (scores : List (String × ℚ)) (tops : List String) :
    ∀ e ∈ candidatesPass2 loader ws keywords scores tops,
      0 ≤ e.relevanceScore ∧ e.relevanceScore ≤ 1 := by
  suffices h : ∀ (ts : List String) (acc : List FileEntry),
      (∀ e ∈ acc, 0 ≤ e.relevanceScore ∧ e.relevanceScore ≤ 1) →
      ∀ e ∈ ts.foldl (candidateStep loader ws keywords scores) acc,
        0 ≤ e.relevanceScore ∧ e.relevanceScore ≤ 1 by
    exact h tops [] (by simp)
  intro ts
  induction ts with
  | nil => intro acc hacc; simpa using hacc
  | cons t ts ih =>
    intro acc hacc
    rw [List.foldl_cons]
    exact ih _ (candidateStep_sound loader ws keywords scores acc t hacc)

theorem chunksGo_subset {α : Type} (n : Nat) :
    ∀ (fuel : Nat) (l batch : List α), batch ∈ chunksGo n fuel l → batch ⊆ l := by
  intro fuel
  induction fuel with
  | zero => intro l batch h; simp [chunksGo] at h
  | succ fuel ih =>
    intro l batch h
    cases l with
    | nil => simp [chunksGo] at h
    | cons x xs =>
      unfold chunksGo at h
      rcases List.mem_cons.1 h with h | h
      · subst h
        exact List.take_subset n (x :: xs)
      · exact (ih _ batch h).trans (List.drop_subset n (x :: xs))

theorem chunksOf_subset {α : Type} (n : Nat) (l batch : List α)
    (h : batch ∈ chunksOf n l) : batch ⊆ l :=
  chunksGo_subset n l.length l batch h

theorem mem_llmSettleStep (a : List FileEntry) (r : FileEntry × Option LLMJudgment)
    (e : FileEntry) (he : e ∈ a) : e ∈ llmSettleStep a r := by
  unfold llmSettleStep
  rcases r with ⟨f, _ | j⟩
  · simp [he]
  · simp only []
    split
    · simp [he]
    · exact he

theorem mem_llmProcessBatch_mono (judge : FileEntry → Option LLMJudgment)
    (batch : List FileEntry) (acc : List FileEntry) (e : FileEntry) (he : e ∈ acc) :
    e ∈ llmProcessBatch judge acc batch := by
  unfold llmProcessBatch
  induction batch generalizing acc with
  | nil => simpa using he
  | cons f fs ih =>
    rw [List.map_cons, List.foldl_cons]
    exact ih _ (mem_llmSettleStep acc (f, judge f) e he)

theorem mem_llmProcessBatch_of_failed (judge : FileEntry → Option LLMJudgment)
    (batch : List FileEntry) (f : FileEntry)
    (hf : f ∈ batch) (hj : judge f = none) :
    ∀ acc, f ∈ llmProcessBatch judge acc batch := by
  induction batch with
  | nil => simp at hf
  | cons b bs ih =>
    intro acc
    have h1 : llmProcessBatch judge acc (b :: bs)
        = llmProcessBatch judge (llmSettleStep acc (b, judge b)) bs := rfl
    rw [h1]
    rcases List.mem_cons.1 hf with h | h
    · subst h
      apply mem_llmProcessBatch_mono
      unfold llmSettleStep
      rw [hj]
      simp
    · exact ih h _

theorem mem_foldl_chunks_mono (judge : FileEntry → Option LLMJudgment)
    (cs : List (List FileEntry)) (f : FileEntry) :
    ∀ acc, f ∈ acc → f ∈ cs.foldl (llmProcessBatch judge) acc := by
  induction cs with
  | nil => intro acc h; simpa using h
  | cons d ds ih =>
    intro acc h
    rw [List.foldl_cons]
    exact ih _ (mem_llmProcessBatch_mono judge d acc f h)

theorem mem_foldl_llmProcessBatch (judge : FileEntry → Option LLMJudgment)
    (chunks : List (List FileEntry)) (batch : List FileEntry) (f : FileEntry)
    (hb : batch ∈ chunks) (hf : f ∈ batch) (hj : judge f = none) :
    ∀ acc, f ∈ chunks.foldl (llmProcessBatch judge) acc := by
  induction chunks with
  | nil => simp at hb
  | cons c cs ih =>
    intro acc
    rw [List.foldl_cons]
    rcases List.mem_cons.1 hb with h | h
    · subst h
      exact mem_foldl_chunks_mono judge cs f _
        (mem_llmProcessBatch_of_failed judge batch f hf hj acc)
    · exact ih h _

theorem llmProcessBatch_all_not_relevant (judge : FileEntry → Option LLMJudgment)
    (batch : List FileEntry)
    (h : ∀ f ∈ batch, ∃ j, judge f = some j ∧ j.is_relevant = false) :
    ∀ acc, llmProcessBatch judge acc batch = acc := by
  induction batch with
  | nil => intro acc; rfl
  | cons b bs ih =>
    intro acc
    have h1 : llmProcessBatch judge acc (b :: bs)
        = llmProcessBatch judge (llmSettleStep acc (b, judge b)) bs := rfl
    rw [h1]
    obtain ⟨j, hj, hrel⟩ := h b (by simp)
    have hstep : llmSettleStep acc (b, judge b) = acc := by
      unfold llmSettleStep
      rw [hj]
      simp [hrel]
    rw [hstep]
    exact ih (fun f hf => h f (List.mem_cons_of_mem b hf)) acc

theorem llmAccumulatedFiles_empty (bs mf : Nat)
    (judge : FileEntry → Option LLMJudgment) (cands : List FileEntry)
    (h : ∀ f ∈ cands.take mf, ∃ j, judge f = some j ∧ j.is_relevant = false) :
    llmAccumulatedFiles bs mf judge cands = [] := by
  unfold llmAccumulatedFiles
  suffices haux : ∀ (chunks : List (List FileEntry)),
      (∀ c ∈ chunks, c ⊆ cands.take mf) →
      chunks.foldl (llmProcessBatch judge) [] = [] by
    exact haux _ (fun c hc => chunksOf_subset bs _ c hc)
  intro chunks hsub
  induction chunks with
  | nil => rfl
  | cons c cs ih =>
    rw [List.foldl_cons,
      llmProcessBatch_all_not_relevant judge c
        (fun f hf => h f (hsub c (by simp) hf)) []]
    exact ih (fun d hd => hsub d (List.mem_cons_of_mem c hd))

theorem foldl_symbolStep_eq (rel : CodeSymbol → SearchKeywords → ℚ)
    (ctx : AnalysisContext) (keywords : SearchKeywords) :
    ∀ (l : List CodeSymbol) (acc : List SymbolEntry),
      l.foldl (symbolStep rel ctx keywords) acc
        = acc ++ (l.filter (fun s => decide ((1/2 : ℚ) < rel s keywords))).map
            (symbolEntryOf ctx) := by
  intro l
  induction l with
  | nil => intro acc; simp
  | cons s ss ih =>
    intro acc
    rw [List.foldl_cons]
    by_cases hc : (1/2 : ℚ) < rel s keywords
    · have hs : symbolStep rel ctx keywords acc s = acc ++ [symbolEntryOf ctx s] := by
        unfold symbolStep
        rw [if_pos hc]
      have hc2 : (2⁻¹ : ℚ) < rel s keywords := by rwa [one_div] at hc
      rw [hs, ih]
      simp [List.filter_cons, hc2]
    · have hs : symbolStep rel ctx keywords acc s = acc := by
        unfold symbolStep
        rw [if_neg hc]
      have hc2 : ¬ (2⁻¹ : ℚ) < rel s keywords := by rwa [one_div] at hc
      rw [hs, ih]
      simp [List.filter_cons, hc2]

theorem eraseReasons_any_false (r : AnalysisResult) :
    (eraseReasons r).files.any (fun f => f.reason != "") = false := by
  simp [eraseReasons]

theorem strContains_lowerStr_firstOf (a b n : String)
    (h : strContains (lowerStr a) n = true) :
    strContains (lowerStr (a ++ b)) n = true := by
  rw [lowerStr_append]
  exact strContains_mono _ _ _ h

theorem symbolText_contains_of_name (s : CodeSymbol) (n : String)
    (h : strContains (lowerStr s.name) n = true) :
    strContains (symbolText s) n = true := by
  unfold symbolText
  exact strContains_lowerStr_firstOf _ _ _
    (strContains_lowerStr_firstOf _ _ _
      (strContains_lowerStr_firstOf _ _ _
        (strContains_lowerStr_firstOf _ _ _ h)))

/-! ## Claim theorems -/

/-- Claim C3: for every candidate file-path set and every keyword set, pass 1
of `findCandidateFiles` keeps at most `2 × maxFilesToAnalyze` paths, and every
kept path's path-only score strictly exceeds the fixed 0.3 threshold. -/
theorem claim_pass1_bound_and_threshold (maxFilesToAnalyze : Nat)
    (files : List String) (keywords : SearchKeywords) :
    (candidatePass1 maxFilesToAnalyze files keywords).length ≤ 2 * maxFilesToAnalyze ∧
    ∀ p ∈ candidatePass1 maxFilesToAnalyze files keywords,
      (3/10 : ℚ) < calculateFilePathScore p keywords := by
  constructor
  · unfold candidatePass1
    rw [List.length_map]
    calc ((sortDesc Prod.snd (buildFileScores files keywords)).take
            (maxFilesToAnalyze * 2)).length
        ≤ maxFilesToAnalyze * 2 := List.length_take_le _ _
      _ = 2 * maxFilesToAnalyze := Nat.mul_comm _ _
  · intro p hp
    unfold candidatePass1 at hp
    obtain ⟨pr, hpr, hfst⟩ := List.mem_map.1 hp
    have h1 : pr ∈ sortDesc Prod.snd (buildFileScores files keywords) :=
      List.take_subset _ _ hpr
    have h2 := mem_sortDesc Prod.snd pr _ h1
    obtain ⟨heq, hgt⟩ := buildFileScores_sound files keywords pr h2
    rw [← hfst, ← heq]
    exact hgt

/-- Witness for claim C3 at a concrete input: one candidate path and one
primary keyword. -/
theorem claim_pass1_bound_and_threshold_witness :
    (candidatePass1 8 ["src/main.ts"] ⟨["main"], [], [], []⟩).length ≤ 2 * 8 ∧
    (3/10 : ℚ) < calculateFilePathScore "src/main.ts" ⟨["main"], [], [], []⟩ :=
  ⟨(claim_pass1_bound_and_threshold 8 ["src/main.ts"] ⟨["main"], [], [], []⟩).1,
   (claim_pass1_bound_and_threshold 8 ["src/main.ts"] ⟨["main"], [], [], []⟩).2
     "src/main.ts" (by with_unfolding_all decide)⟩

/-- Claim C4: a path matching an exclusion pattern receives exactly 0.1 times
the score the same path and keywords would receive with the exclusion penalty
removed (all bonuses included in the penalized amount). -/
theorem claim_exclusion_penalty (filePath : String) (keywords : SearchKeywords)
    (h : matchesExcludePatterns filePath = true) :
    calculateFilePathScore filePath keywords
      = (1/10) * filePathScoreBeforePenalty filePath keywords := by
  unfold calculateFilePathScore
  rw [h]
  simp [mul_comm]

/-- Witness for claim C4: a `node_modules` path with an important-file bonus. -/
theorem claim_exclusion_penalty_witness :
    matchesExcludePatterns "node_modules/index.ts" = true ∧
    calculateFilePathScore "node_modules/index.ts" ⟨[], [], [], []⟩
      = (1/10) * filePathScoreBeforePenalty "node_modules/index.ts" ⟨[], [], [], []⟩ :=
  ⟨by decide, claim_exclusion_penalty "node_modules/index.ts" ⟨[], [], [], []⟩ (by decide)⟩

theorem llmProcessCandidates_length_le (bs mf : Nat)
    (judge : FileEntry → Option LLMJudgment) (cands : List FileEntry) :
    (llmProcessCandidates bs mf judge cands).length ≤ 10 := by
  unfold llmProcessCandidates
  dsimp only
  split
  · exact le_trans (List.length_take_le _ _) (by norm_num)
  · exact le_trans (List.length_take_le _ _) (by norm_num)

/-- Claim C6: for all contexts and keyword sets, `findRelevantFiles` returns
at most 10 entries (fallback branch included), `findRelevantSymbols` at most
10, and `findRelevantApis` at most 8. -/
theorem claim_result_caps :
    (∀ (batchSizeOpt maxFilesOpt : Nat) (loader : String → Option String)
        (judge : FileEntry → Option LLMJudgment) (ctx : AnalysisContext)
        (keywords : SearchKeywords),
      (llmFindRelevantFiles batchSizeOpt maxFilesOpt loader judge ctx keywords).length ≤ 10) ∧
    (∀ (rel : CodeSymbol → SearchKeywords → ℚ) (ctx : AnalysisContext)
        (keywords : SearchKeywords),
      (llmFindRelevantSymbols rel ctx keywords).length ≤ 10) ∧
    (∀ (rel : CodeSymbol → SearchKeywords → ℚ) (ctx : AnalysisContext)
        (keywords : SearchKeywords),
      (llmFindRelevantApis rel ctx keywords).length ≤ 8) := by
  refine ⟨?_, ?_, ?_⟩
  · intro bs mf loader judge ctx keywords
    unfold llmFindRelevantFiles
    exact llmProcessCandidates_length_le _ _ _ _
  · intro rel ctx keywords
    unfold llmFindRelevantSymbols
    rcases ctx.symbolAnalysis with _ | sa
    · simp
    · exact List.length_take_le _ _
  · intro rel ctx keywords
    unfold llmFindRelevantApis
    rcases ctx.symbolAnalysis with _ | sa
    · simp
    · exact List.length_take_le _ _

/-- Claim C7: every entry returned by `findCandidateFiles` has
`relevanceScore` in [0, 1]: the combined score is only kept above the 0.5
threshold, divided by 10, and capped at 1. -/
theorem claim_candidate_scores_normalized (maxFilesToAnalyze : Nat)
    (loader : String → Option String) (ctx : AnalysisContext)
    (keywords : SearchKeywords) :
    ∀ e ∈ findCandidateFiles maxFilesToAnalyze loader ctx keywords,
      0 ≤ e.relevanceScore ∧ e.relevanceScore ≤ 1 := by
  intro e he
  unfold findCandidateFiles at he
  exact candidatesPass2_sound _ _ _ _ _ e (mem_sortDesc _ _ _ he)

/-- Witness for claim C7: a one-file workspace whose single candidate entry
scores 1/10. -/
theorem claim_candidate_scores_normalized_witness :
    0 ≤ (FileEntry.mk "a.ts" "x" (1/10) "").relevanceScore ∧
    (FileEntry.mk "a.ts" "x" (1/10) "").relevanceScore ≤ 1 := by
  have heval : findCandidateFiles 8 (fun _ => some "x") ⟨"w", ["a.ts"], none⟩
      ⟨[], [], [], []⟩ = [FileEntry.mk "a.ts" "x" (1/10) ""] := by
    have hscore : calculateFilePathScore "a.ts" ⟨[], [], [], []⟩ = 1 := by
      have h1 : matchesCodeFilePatterns "a.ts" = true := by decide
      have h2 : matchesImportantFilePatterns "a.ts" = false := by decide
      have h3 : matchesImportantDirPatterns "a.ts" = false := by decide
      have h4 : matchesExcludePatterns "a.ts" = false := by decide
      simp [calculateFilePathScore, filePathScoreBeforePenalty, h1, h2, h3, h4]
    have hcontent : calculateContentScore "x" ⟨[], [], [], []⟩ = 0 := by
      simp [calculateContentScore]
    have htake : strTake "x" 4000 = "x" := by decide
    have hbuild : buildFileScores ["a.ts"] ⟨[], [], [], []⟩ = [("a.ts", 1)] := by
      simp [buildFileScores, hscore, mapSet]
      norm_num
    have hpass1 : candidatePass1 8 ["a.ts"] ⟨[], [], [], []⟩ = ["a.ts"] := by
      simp [candidatePass1, hbuild, sortDesc, insertDesc]
    have hpass2 : candidatesPass2 (fun _ => some "x") "w" ⟨[], [], [], []⟩
        [("a.ts", 1)] ["a.ts"] = [FileEntry.mk "a.ts" "x" (1/10) ""] := by
      simp [candidatesPass2, candidateStep, pathJoin, hcontent, List.lookup, htake]
      norm_num [min_eq_left]
    simp [findCandidateFiles, hbuild, hpass1, hpass2, sortDesc, insertDesc]
  exact claim_candidate_scores_normalized 8 (fun _ => some "x")
    ⟨"w", ["a.ts"], none⟩ ⟨[], [], [], []⟩ (FileEntry.mk "a.ts" "x" (1/10) "")
    (by rw [heval]; exact List.mem_singleton.2 rfl)

/-- Claim C1 counterexample: a two-file workspace whose candidate filter
yields two entries; the call for `a.ts` throws and `b.ts` is judged not
relevant, so zero files are retained as relevant by the external judgment —
yet `findRelevantFiles` returns the single failure-degraded file, not the
candidate filter's first 5 entries (both files). -/
theorem claim_llm_fallback_counterexample :
    relevantRetainedCount 8
        (fun f => if f.path = "a.ts" then none else some ⟨false, 0, "n"⟩)
        (findCandidateFiles 8 (fun _ => some "x") ⟨"w", ["a.ts", "b.ts"], none⟩
          ⟨[], [], [], []⟩) = 0 ∧
    llmFindRelevantFiles 3 8 (fun _ => some "x")
        (fun f => if f.path = "a.ts" then none else some ⟨false, 0, "n"⟩)
        ⟨"w", ["a.ts", "b.ts"], none⟩ ⟨[], [], [], []⟩
      ≠ (findCandidateFiles 8 (fun _ => some "x") ⟨"w", ["a.ts", "b.ts"], none⟩
          ⟨[], [], [], []⟩).take 5 := by
  have hscoreA : calculateFilePathScore "a.ts" ⟨[], [], [], []⟩ = 1 := by
    have h1 : matchesCodeFilePatterns "a.ts" = true := by decide
    have h2 : matchesImportantFilePatterns "a.ts" = false := by decide
    have h3 : matchesImportantDirPatterns "a.ts" = false := by decide
    have h4 : matchesExcludePatterns "a.ts" = false := by decide
    simp [calculateFilePathScore, filePathScoreBeforePenalty, h1, h2, h3, h4]
  have hscoreB : calculateFilePathScore "b.ts" ⟨[], [], [], []⟩ = 1 := by
    have h1 : matchesCodeFilePatterns "b.ts" = true := by decide
    have h2 : matchesImportantFilePatterns "b.ts" = false := by decide
    have h3 : matchesImportantDirPatterns "b.ts" = false := by decide
    have h4 : matchesExcludePatterns "b.ts" = false := by decide
    simp [calculateFilePathScore, filePathScoreBeforePenalty, h1, h2, h3, h4]
  have hcontent : calculateContentScore "x" ⟨[], [], [], []⟩ = 0 := by
    simp [calculateContentScore]
  have htake : strTake "x" 4000 = "x" := by decide
  have hbuild : buildFileScores ["a.ts", "b.ts"] ⟨[], [], [], []⟩
      = [("a.ts", 1), ("b.ts", 1)] := by
    simp [buildFileScores, hscoreA, hscoreB]
    norm_num [mapSet]
    decide
  have hpass1 : candidatePass1 8 ["a.ts", "b.ts"] ⟨[], [], [], []⟩
      = ["a.ts", "b.ts"] := by
    norm_num [candidatePass1, hbuild, sortDesc, insertDesc]
  have hpass2 : candidatesPass2 (fun _ => some "x") "w" ⟨[], [], [], []⟩
      [("a.ts", 1), ("b.ts", 1)] ["a.ts", "b.ts"]
      = [FileEntry.mk "a.ts" "x" (1/10) "", FileEntry.mk "b.ts" "x" (1/10) ""] := by
    simp [candidatesPass2, candidateStep, pathJoin, hcontent, List.lookup, htake]
    norm_num [min_eq_left]
  have heval : findCandidateFiles 8 (fun _ => some "x") ⟨"w", ["a.ts", "b.ts"], none⟩
      ⟨[], [], [], []⟩
      = [FileEntry.mk "a.ts" "x" (1/10) "", FileEntry.mk "b.ts" "x" (1/10) ""] := by
    norm_num [findCandidateFiles, hbuild, hpass1, hpass2, sortDesc, insertDesc]
  constructor
  · rw [heval]
    with_unfolding_all decide
  · show llmProcessCandidates 3 8
        (fun f => if f.path = "a.ts" then none else some ⟨false, 0, "n"⟩)
        (findCandidateFiles 8 (fun _ => some "x") ⟨"w", ["a.ts", "b.ts"], none⟩
          ⟨[], [], [], []⟩)
      ≠ (findCandidateFiles 8 (fun _ => some "x") ⟨"w", ["a.ts", "b.ts"], none⟩
          ⟨[], [], [], []⟩).take 5
    rw [heval]
    with_unfolding_all decide

/-- Claim C1 (amended): the fallback to the candidate filter's first 5
entries happens exactly when the accumulated list is empty, i.e. when every
analyzed candidate was judged not relevant AND no per-file call failed; under
that hypothesis `findRelevantFiles` (with effective batch size `bs` and
candidate cap `mf`) returns the first 5 `findCandidateFiles` entries
unmodified in content and order. -/
theorem claim_llm_fallback_amended (bs mf : Nat) (loader : String → Option String)
    (judge : FileEntry → Option LLMJudgment) (ctx : AnalysisContext)
    (keywords : SearchKeywords)
    (h : ∀ f ∈ (findCandidateFiles mf loader ctx keywords).take mf,
      ∃ j, judge f = some j ∧ j.is_relevant = false) :
    llmProcessCandidates bs mf judge (findCandidateFiles mf loader ctx keywords)
      = (findCandidateFiles mf loader ctx keywords).take 5 := by
  unfold llmProcessCandidates
  rw [llmAccumulatedFiles_empty bs mf judge (findCandidateFiles mf loader ctx keywords) h]
  simp

/-- Witness for the amended claim C1: a one-candidate workspace whose single
external call judges the file not relevant. -/
theorem claim_llm_fallback_amended_witness :
    llmProcessCandidates 3 8 (fun _ => some ⟨false, 0, "r"⟩)
        (findCandidateFiles 8 (fun _ => some "x") ⟨"w", ["a.ts"], none⟩ ⟨[], [], [], []⟩)
      = (findCandidateFiles 8 (fun _ => some "x") ⟨"w", ["a.ts"], none⟩
          ⟨[], [], [], []⟩).take 5 :=
  claim_llm_fallback_amended 3 8 (fun _ => some "x") (fun _ => some ⟨false, 0, "r"⟩)
    ⟨"w", ["a.ts"], none⟩ ⟨[], [], [], []⟩
    (fun _ _ => ⟨⟨false, 0, "r"⟩, rfl, rfl⟩)

/-- Claim C2: if every per-file external call in a batch throws (`judge`
returns `none` on the whole batch), the batch still completes and every file
of that batch appears in the accumulated `llmAnalyzedFiles` as its original
candidate entry, heuristic relevance score included.  The embedding is total,
so no exception can escape `findRelevantFiles`: a throwing call is exactly a
`none` judgment. -/
theorem claim_batch_total_failure_degrades (bs mf : Nat)
    (judge : FileEntry → Option LLMJudgment) (candidateFiles : List FileEntry)
    (batch : List FileEntry)
    (hb : batch ∈ chunksOf bs (candidateFiles.take mf))
    (hfail : ∀ f ∈ batch, judge f = none) :
    ∀ f ∈ batch, f ∈ llmAccumulatedFiles bs mf judge candidateFiles := by
  intro f hf
  unfold llmAccumulatedFiles
  exact mem_foldl_llmProcessBatch judge _ batch f hb hf (hfail f hf) []

/-- Witness for claim C2: a single batch of two files whose calls both
throw; both files survive with their original scores. -/
theorem claim_batch_total_failure_degrades_witness :
    FileEntry.mk "a" "" 1 "" ∈
      llmAccumulatedFiles 3 8 (fun _ => none)
        [FileEntry.mk "a" "" 1 "", FileEntry.mk "b" "" (9/10) ""] :=
  claim_batch_total_failure_degrades 3 8 (fun _ => none)
    [FileEntry.mk "a" "" 1 "", FileEntry.mk "b" "" (9/10) ""]
    [FileEntry.mk "a" "" 1 "", FileEntry.mk "b" "" (9/10) ""]
    (by with_unfolding_all decide) (fun _ _ => rfl)
    (FileEntry.mk "a" "" 1 "") (by with_unfolding_all decide)

/-- Claim C5: over any baseline confidence within [0, 1] (the shared
`BaseAnalysisStrategy` baseline, which is derived from result size and score
distribution and hence independent of the files' reasons), the model-assisted
`calculateConfidence` always returns a value in [0, 1]; and a result carrying
at least one non-empty reason has confidence at least that of the identical
result with all reasons erased, strictly greater whenever the reason-free
confidence is below the 1.0 cap. -/
theorem claim_confidence_bounds_and_bonus (base : AnalysisResult → ℚ)
    (hbase : ∀ y, 0 ≤ base y ∧ base y ≤ 1) (x r : AnalysisResult)
    (hind : base (eraseReasons r) = base r)
    (hr : r.files.any (fun f => f.reason != "") = true) :
    (0 ≤ llmCalculateConfidence base x ∧ llmCalculateConfidence base x ≤ 1) ∧
    llmCalculateConfidence base (eraseReasons r) ≤ llmCalculateConfidence base r ∧
    (llmCalculateConfidence base (eraseReasons r) < 1 →
      llmCalculateConfidence base (eraseReasons r) < llmCalculateConfidence base r) := by
  have hconf_er : llmCalculateConfidence base (eraseReasons r) = min (base r) 1 := by
    unfold llmCalculateConfidence
    rw [eraseReasons_any_false r, hind]
    simp
  have hconf_r : llmCalculateConfidence base r = min (base r + 1/5) 1 := by
    unfold llmCalculateConfidence
    rw [hr]
    simp
  refine ⟨?_, ?_, ?_⟩
  · unfold llmCalculateConfidence
    have hb0 : (0 : ℚ) ≤
        (if x.files.any (fun f => f.reason != "") then (1/5 : ℚ) else 0) := by
      split
      · norm_num
      · norm_num
    constructor
    · apply le_min
      · have := (hbase x).1
        linarith
      · norm_num
    · exact min_le_right _ _
  · rw [hconf_er, hconf_r]
    exact min_le_min (by linarith) le_rfl
  · intro hlt
    rw [hconf_er] at hlt ⊢
    rw [hconf_r]
    have hb1 := (hbase r).2
    rw [min_eq_left hb1] at hlt ⊢
    exact lt_min (by linarith) hlt

/-- Witness for claim C5: the constant 1/2 baseline, an arbitrary reason-free
result for the bounds, and a one-file result with reason "why". -/
theorem claim_confidence_bounds_and_bonus_witness :
    (0 ≤ llmCalculateConfidence (fun _ => (1/2 : ℚ)) ⟨[], [], []⟩ ∧
      llmCalculateConfidence (fun _ => (1/2 : ℚ)) ⟨[], [], []⟩ ≤ 1) ∧
    llmCalculateConfidence (fun _ => (1/2 : ℚ))
        (eraseReasons ⟨[⟨"a", "c", 1, "why"⟩], [], []⟩)
      ≤ llmCalculateConfidence (fun _ => (1/2 : ℚ)) ⟨[⟨"a", "c", 1, "why"⟩], [], []⟩ ∧
    (llmCalculateConfidence (fun _ => (1/2 : ℚ))
        (eraseReasons ⟨[⟨"a", "c", 1, "why"⟩], [], []⟩) < 1 →
      llmCalculateConfidence (fun _ => (1/2 : ℚ))
          (eraseReasons ⟨[⟨"a", "c", 1, "why"⟩], [], []⟩)
        < llmCalculateConfidence (fun _ => (1/2 : ℚ)) ⟨[⟨"a", "c", 1, "why"⟩], [], []⟩) :=
  claim_confidence_bounds_and_bonus (fun _ => (1/2 : ℚ)) (fun _ => by norm_num)
    ⟨[], [], []⟩ ⟨[⟨"a", "c", 1, "why"⟩], [], []⟩ rfl (by decide)

/-- Claim C8: a symbol-analysis result containing a symbol named
`getUserController` with comment `"GET /users/:id"`, under keywords giving it
relevance above 0.3, makes `findRelevantApis` return that symbol with method
`GET` (the verb vocabulary is scanned in order, and `get` occurs in the
lower-cased name). -/
theorem claim_getUserController_method_get
    (rel : CodeSymbol → SearchKeywords → ℚ) (ctx : AnalysisContext)
    (keywords : SearchKeywords) (s : CodeSymbol)
    (hsa : ctx.symbolAnalysis = some ⟨[s]⟩)
    (hname : s.name = "getUserController")
    (hcomment : s.comment = "GET /users/:id")
    (hrel : (3/10 : ℚ) < rel s keywords) :
    llmFindRelevantApis rel ctx keywords
      = [⟨pathRelative ctx.workspacePath s.filePath, "GET", "GET /users/:id"⟩] := by
  have hapi : isApiRelated s = true := by
    unfold isApiRelated
    refine List.any_eq_true.2 ⟨"controller", by simp [apiTerms], ?_⟩
    apply symbolText_contains_of_name
    rw [hname]
    decide
  have hm : extractHttpMethod s = some "GET" := by
    have htext : strContains (lowerStr (s.name ++ " " ++ s.qualifiedName)) "get"
        = true := by
      apply strContains_lowerStr_firstOf
      apply strContains_lowerStr_firstOf
      rw [hname]
      decide
    unfold extractHttpMethod httpMethods
    dsimp only
    rw [List.find?_cons_of_pos _ htext]
    rfl
  unfold llmFindRelevantApis
  rw [hsa]
  simp only [List.foldl_cons, List.foldl_nil]
  unfold apiStep
  rw [hapi, if_pos rfl, if_pos hrel]
  unfold apiEntryOf symbolDescription
  rw [hm, hcomment]
  simp

/-- Witness for claim C8: the constant relevance 1, a single
`getUserController` symbol. -/
theorem claim_getUserController_method_get_witness :
    llmFindRelevantApis (fun _ _ => 1)
        ⟨"w", [], some ⟨[⟨"getUserController", "UserController.getUserController",
          6, "w/x.ts", ⟨1, 2⟩, "GET /users/:id"⟩]⟩⟩ ⟨[], [], [], []⟩
      = [⟨pathRelative "w" "w/x.ts", "GET", "GET /users/:id"⟩] :=
  claim_getUserController_method_get (fun _ _ => 1)
    ⟨"w", [], some ⟨[⟨"getUserController", "UserController.getUserController",
      6, "w/x.ts", ⟨1, 2⟩, "GET /users/:id"⟩]⟩⟩ ⟨[], [], [], []⟩
    ⟨"getUserController", "UserController.getUserController", 6, "w/x.ts",
      ⟨1, 2⟩, "GET /users/:id"⟩
    rfl rfl rfl (by norm_num)

/-- Claim C9: `extractHttpMethod` depends only on the symbol's name and
qualified name — two symbols differing only in their comment receive the same
method — and a symbol whose HTTP verb occurs only in its comment (so
`extractHttpMethod` returns `none`) is emitted by `findRelevantApis` with
method `UNKNOWN`, even though the comment text did make it an API candidate. -/
theorem claim_method_ignores_comment (s : CodeSymbol) (c : String)
    (rel : CodeSymbol → SearchKeywords → ℚ) (ctx : AnalysisContext)
    (keywords : SearchKeywords) (t : CodeSymbol)
    (hsa : ctx.symbolAnalysis = some ⟨[t]⟩)
    (hnone : extractHttpMethod t = none)
    (hapi : isApiRelated t = true)
    (hrel : (3/10 : ℚ) < rel t keywords) :
    extractHttpMethod { s with comment := c } = extractHttpMethod s ∧
    llmFindRelevantApis rel ctx keywords
      = [⟨pathRelative ctx.workspacePath t.filePath, "UNKNOWN",
          symbolDescription t⟩] := by
  constructor
  · rfl
  · unfold llmFindRelevantApis
    rw [hsa]
    simp only [List.foldl_cons, List.foldl_nil]
    unfold apiStep
    rw [hapi, if_pos rfl, if_pos hrel]
    unfold apiEntryOf
    rw [hnone]
    simp

/-- Witness for claim C9: a symbol whose name and qualified name contain no
HTTP verb but whose comment says `"POST /users"`. -/
theorem claim_method_ignores_comment_witness :
    extractHttpMethod { CodeSymbol.mk "x" "y" 6 "w/a.ts" ⟨0, 0⟩ "old" with
      comment := "GET /a" } = extractHttpMethod (CodeSymbol.mk "x" "y" 6 "w/a.ts" ⟨0, 0⟩ "old") ∧
    llmFindRelevantApis (fun _ _ => 1)
        ⟨"w", [], some ⟨[⟨"fetchUsers", "UserRepo.fetchUsers", 6, "w/u.ts",
          ⟨1, 2⟩, "POST /users"⟩]⟩⟩ ⟨[], [], [], []⟩
      = [⟨pathRelative "w" "w/u.ts", "UNKNOWN",
          symbolDescription ⟨"fetchUsers", "UserRepo.fetchUsers", 6, "w/u.ts",
            ⟨1, 2⟩, "POST /users"⟩⟩] :=
  claim_method_ignores_comment (CodeSymbol.mk "x" "y" 6 "w/a.ts" ⟨0, 0⟩ "old")
    "GET /a" (fun _ _ => 1)
    ⟨"w", [], some ⟨[⟨"fetchUsers", "UserRepo.fetchUsers", 6, "w/u.ts",
      ⟨1, 2⟩, "POST /users"⟩]⟩⟩ ⟨[], [], [], []⟩
    ⟨"fetchUsers", "UserRepo.fetchUsers", 6, "w/u.ts", ⟨1, 2⟩, "POST /users"⟩
    rfl (by decide) (by decide) (by norm_num)

/-- Claim C10: `findRelevantSymbols` preserves the input order of the
symbol-analysis sequence: its output is the order-preserving filter keeping
exactly the symbols whose relevance exceeds 0.5, mapped to entries and
truncated to 10 — it never re-sorts by relevance score. -/
theorem claim_symbols_order_preserved (rel : CodeSymbol → SearchKeywords → ℚ)
    (ctx : AnalysisContext) (keywords : SearchKeywords) (sa : SymbolAnalysis)
    (hsa : ctx.symbolAnalysis = some sa) :
    llmFindRelevantSymbols rel ctx keywords
      = ((sa.symbols.filter (fun s => decide ((1/2 : ℚ) < rel s keywords))).map
          (symbolEntryOf ctx)).take 10 := by
  unfold llmFindRelevantSymbols
  rw [hsa]
  simp only [foldl_symbolStep_eq rel ctx keywords sa.symbols, List.nil_append]

/-- Witness for claim C10: a single symbol under the constant relevance 1. -/
theorem claim_symbols_order_preserved_witness :
    llmFindRelevantSymbols (fun _ _ => 1)
        ⟨"w", [], some ⟨[⟨"n", "q", 6, "w/x.ts", ⟨1, 2⟩, "d"⟩]⟩⟩ ⟨[], [], [], []⟩
      = ((([⟨"n", "q", 6, "w/x.ts", ⟨1, 2⟩, "d"⟩] : List CodeSymbol).filter
            (fun s => decide ((1/2 : ℚ) < (fun _ _ => (1 : ℚ)) s
              (⟨[], [], [], []⟩ : SearchKeywords)))).map
          (symbolEntryOf ⟨"w", [], some ⟨[⟨"n", "q", 6, "w/x.ts", ⟨1, 2⟩, "d"⟩]⟩⟩)).take 10 :=
  claim_symbols_order_preserved (fun _ _ => 1)
    ⟨"w", [], some ⟨[⟨"n", "q", 6, "w/x.ts", ⟨1, 2⟩, "d"⟩]⟩⟩ ⟨[], [], [], []⟩
    ⟨[⟨"n", "q", 6, "w/x.ts", ⟨1, 2⟩, "d"⟩]⟩ rfl
